import Mathlib

/-!
Verification of the markdown-to-Confluence-storage converter
(`convertMarkdownToConfluenceStorage` and `processMarkdownTable`).

The converter is embedded shallowly: JavaScript strings are Lean `String`s,
and every string operation the code uses (`trim`, `split`, `includes`,
`startsWith`, single-character global `replace`, and the four fixed regexes)
is translated explicitly on the underlying `List Char`, so that every
definition is executable and kernel-reducible.

JS semantics modelled here:
  * `s.trim()` removes leading/trailing whitespace characters;
  * `s.split(c)` on a one-character separator keeps empty pieces and maps
    the empty string to `[""]`;
  * `s.replace(/c/g, r)` for a single character `c` is a per-character
    substitution;
  * a global regex replace scans left to right, restarting after each match
    and advancing one position after each failed match attempt.
-/

namespace ConfluenceMd

/-- Whitespace class used for JS `trim` and `\s`: space, tab, newline,
carriage return, vertical tab, form feed, no-break space. -/
def isJsWs (c : Char) : Bool :=
  c = ' ' || c = '\t' || c = '\n' || c = '\r' ||
  c = Char.ofNat 11 || c = Char.ofNat 12 || c = Char.ofNat 160

/-- JS `String.prototype.trim` on the character list. -/
def trimL (cs : List Char) : List Char :=
  ((cs.dropWhile isJsWs).reverse.dropWhile isJsWs).reverse

/-- JS `s.trim()`. -/
def jsTrim (s : String) : String := ⟨trimL s.data⟩

/-- JS `s.split(sep)` for a one-character separator, on character lists:
empty pieces are kept and the empty string yields one empty piece. -/
def splitOnChar (sep : Char) : List Char → List (List Char)
  | [] => [[]]
  | c :: rest =>
    if c = sep then [] :: splitOnChar sep rest
    else
      match splitOnChar sep rest with
      | h :: t => (c :: h) :: t
      | [] => [[c]]

/-- JS `s.split("|")`. -/
def splitPipe (s : String) : List String :=
  (splitOnChar '|' s.data).map (fun cs => ⟨cs⟩)

/-- JS `s.split("\n")` (line splitting in the converter). -/
def splitNl (s : String) : List String :=
  (splitOnChar '\n' s.data).map (fun cs => ⟨cs⟩)

/-- Per-character expansion: the shape of a global single-character
regex replace. -/
def charExpand (g : Char → List Char) : List Char → List Char
  | [] => []
  | c :: rest => g c ++ charExpand g rest

/-- JS `s.replace(/t/g, rep)` for a single target character `t`. -/
def replaceCharL (target : Char) (rep : List Char) : List Char → List Char :=
  charExpand (fun c => if c = target then rep else [c])

/-- U+2013 EN DASH. -/
def enDash : Char := Char.ofNat 8211

/-- U+2014 EM DASH. -/
def emDash : Char := Char.ofNat 8212

/-- ASCII apostrophe (code point 39). -/
def apos : Char := Char.ofNat 39

/-- The character-substitution pre-pass of `convertMarkdownToConfluenceStorage`
(source lines 13-20), applied innermost first in source order:
en-dash to dash, em-dash to dash, then the four quote substitutions exactly
as written in the source - their regex targets are the ASCII double quote
and ASCII apostrophe (not the Unicode smart-quote code points), each replaced
by itself - and finally ampersand to the word `and`. -/
def normalizeL (cs : List Char) : List Char :=
  replaceCharL '&' "and".data
    (replaceCharL apos [apos]
      (replaceCharL apos [apos]
        (replaceCharL '"' ['"']
          (replaceCharL '"' ['"']
            (replaceCharL emDash ['-']
              (replaceCharL enDash ['-'] cs))))))

/-- The Line Normalizer on strings. -/
def normalize (s : String) : String := ⟨normalizeL s.data⟩

/-- One pass of JS `text.replace(/\*\*([^*]+)\*\*/g, "<strong>$1</strong>")`.
At a `**` the content group `[^*]+` is a maximal nonempty run of
non-asterisk characters which must be followed by `**`; on a failed
attempt the scan advances one character.  `fuel` bounds the recursion and
is always called with at least the list length, which suffices since every
step consumes at least one character. -/
def boldPassF : Nat → List Char → List Char
  | _, [] => []
  | 0, cs => cs
  | fuel+1, '*' :: '*' :: rest =>
    let content := rest.takeWhile (fun c => c != '*')
    match content, rest.dropWhile (fun c => c != '*') with
    | _ :: _, '*' :: '*' :: after2 =>
      "<strong>".data ++ content ++ "</strong>".data ++ boldPassF fuel after2
    | _, _ => '*' :: boldPassF fuel ('*' :: rest)
  | fuel+1, c :: rest => c :: boldPassF fuel rest

/-- One pass of JS `text.replace(/\*([^*]+)\*/g, "<em>$1</em>")`,
with the same scanning discipline as `boldPassF`. -/
def italicPassF : Nat → List Char → List Char
  | _, [] => []
  | 0, cs => cs
  | fuel+1, '*' :: rest =>
    let content := rest.takeWhile (fun c => c != '*')
    match content, rest.dropWhile (fun c => c != '*') with
    | _ :: _, '*' :: after2 =>
      "<em>".data ++ content ++ "</em>".data ++ italicPassF fuel after2
    | _, _ => '*' :: italicPassF fuel rest
  | fuel+1, c :: rest => c :: italicPassF fuel rest

/-- The Inline Formatter: the bold substitution followed by the italic
substitution, exactly as applied to header text, list items, paragraphs
and table cells in the source. -/
def formatInline (s : String) : String :=
  let b := boldPassF s.data.length s.data
  ⟨italicPassF b.length b⟩

/-- Length of the leading run of `#` characters. -/
def countLeadingHash (cs : List Char) : Nat :=
  (cs.takeWhile (fun c => c = '#')).length

/-- JS `line.match(/^#{1,3}\s/)` as a Boolean: one to three leading `#`
followed by a whitespace character.  (With four or more leading `#` no
backtracking choice of `#{1,3}` can be followed by `\s`, so the regex
fails, which the leading-run count captures.) -/
def headerMatchB (line : String) : Bool :=
  let n := countLeadingHash line.data
  decide (1 ≤ n) && decide (n ≤ 3) &&
    (match line.data.drop n with
     | c :: _ => isJsWs c
     | [] => false)

/-- JS `line.replace(/^#{1,3}\s*/, "")`: remove up to three leading `#`
and the whitespace run after them; if the line has no leading `#` the
regex does not match and the line is unchanged. -/
def headerText (line : String) : String :=
  let n := countLeadingHash line.data
  if n = 0 then line else ⟨(line.data.drop (min 3 n)).dropWhile isJsWs⟩

/-- JS `(line.match(/^#+/) || [""])[0].length`: the length of the leading
`#` run. -/
def headerLevel (line : String) : Nat := countLeadingHash line.data

/-- JS `line.match(/^\s*\|?\s*-+\s*\|/)` as a Boolean (a prefix match:
optional whitespace, optional pipe, whitespace, a nonempty dash run,
whitespace, then a pipe).  The committed greedy parse is faithful: if the
optional pipe is taken and the rest fails, declining it also fails because
`\s*-+` cannot start at a pipe, and a shortened dash run leaves a dash
where `\s*\|` cannot continue. -/
def dashPipeMatchB (line : String) : Bool :=
  let t1 := line.data.dropWhile isJsWs
  let t2 := match t1 with
            | '|' :: r => r
            | other => other
  let t3 := t2.dropWhile isJsWs
  match t3 with
  | '-' :: _ =>
    (match (t3.dropWhile (fun c => c = '-')).dropWhile isJsWs with
     | '|' :: _ => true
     | _ => false)
  | _ => false

/-- Dash-or-colon class `[-:]`. -/
def isDashColon (c : Char) : Bool := c = '-' || c = ':'

/-- Full match of one separator cell `[\s]*[-:]+[\s]*`. -/
def isSepPiece (p : String) : Bool :=
  let t1 := p.data.dropWhile isJsWs
  match t1 with
  | c :: _ => isDashColon c && ((t1.dropWhile isDashColon).dropWhile isJsWs).isEmpty
  | [] => false

/-- JS `nextLine.match(/^\|?[\s]*[-:]+[\s]*(\|[\s]*[-:]+[\s]*)*\|?$/)` as a
Boolean.  Since a separator cell never contains or equals a pipe and is
never empty, a string matches exactly when, after splitting on `|` and
discarding an empty first piece (the optional leading pipe) and an empty
last piece (the optional trailing pipe), at least one piece remains and
every remaining piece is a separator cell. -/
def sepMatchB (s : String) : Bool :=
  let ps := splitPipe s
  let ps1 := match ps with
             | "" :: r => r
             | other => other
  let ps2 := match ps1.getLast? with
             | some "" => ps1.dropLast
             | _ => ps1
  !ps2.isEmpty && ps2.all isSepPiece

/-- The table-candidate test of the Block Scanner (source line 76), applied
to the already-trimmed line: it contains a pipe and does not match the
exclusion regex `^\s*\|?\s*-+\s*\|`. -/
def lineIsTableCandidate (line : String) : Bool :=
  line.data.contains '|' && !(dashPipeMatchB line)

/-- Drop a leading and a trailing empty cell (from a `|` at the start or
end of the line): JS `cells.slice(startIdx, endIdx)` with the two index
adjustments of the source. -/
def dropEdgeEmpty (cells : List String) : List String :=
  let s := if cells.head? = some "" then 1 else 0
  let e := if cells.getLast? = some "" then cells.length - 1 else cells.length
  (cells.take e).drop s

/-- The condition under which the data-row loop of `processMarkdownTable`
consumes a line: nonempty after trimming and containing a pipe. -/
def consumePredB (l : String) : Bool :=
  !(jsTrim l).data.isEmpty && (jsTrim l).data.contains '|'

/-- The cell list extracted from one table line: trim the line, split on
`|`, trim every cell, drop leading/trailing empty cells. -/
def cellsOfLine (l : String) : List String :=
  dropEdgeEmpty ((splitPipe (jsTrim l)).map jsTrim)

/-- The data-row loop of `processMarkdownTable` (source lines 157-172) on
the lines following the separator row: returns the collected rows and the
number of lines consumed.  A consumed line whose cell list is empty is
counted but contributes no row (`if (cells.length > 0)`). -/
def collectDataRows : List String → List (List String) × Nat
  | [] => ([], 0)
  | l :: rest =>
    if consumePredB l then
      let cells := cellsOfLine l
      let res := collectDataRows rest
      ((if cells.isEmpty then res.1 else cells :: res.1), res.2 + 1)
    else ([], 0)

/-- One header cell: the per-cell re-run of the normalizer substitutions
followed by inline formatting, wrapped in `<th>`. -/
def thCell (h : String) : String :=
  "<th>" ++ formatInline (normalize h) ++ "</th>"

/-- One data cell: same per-cell treatment, wrapped in `<td>`. -/
def tdCell (c : String) : String :=
  "<td>" ++ formatInline (normalize c) ++ "</td>"

/-- One emitted data row. -/
def rowHtml (row : List String) : String :=
  "<tr>" ++ String.join (row.map tdCell) ++ "</tr>"

/-- `processMarkdownTable(lines, startIndex)` re-indexed to the suffix of
`lines` starting at `startIndex`: the first element is the header row, the
second the separator row (skipped unconditionally), and the data-row loop
runs from the third on.  The second component is the number of lines
consumed, `lastIndex - startIndex + 1` in the source's absolute indexing
(the source returns `lastIndex = currentIndex - 1`). -/
def processMarkdownTable (ls : List String) : String × Nat :=
  let headerLine := jsTrim (ls.headD "")
  let headers := dropEdgeEmpty ((splitPipe headerLine).map jsTrim)
  let res := collectDataRows (ls.drop 2)
  let headerHtml :=
    if headers.isEmpty then ""
    else "<tr>" ++ String.join (headers.map thCell) ++ "</tr>"
  ("<table><tbody>" ++ headerHtml ++ String.join (res.1.map rowHtml) ++
     "</tbody></table>", 2 + res.2)

/-- The header fragment `<h${level}>${formatted}</h${level}>`. -/
def headerFragment (line : String) : String :=
  "<h" ++ toString (headerLevel line) ++ ">" ++ formatInline (headerText line) ++
    "</h" ++ toString (headerLevel line) ++ ">"

/-- The Block Scanner loop of `convertMarkdownToConfluenceStorage`
(source lines 27-117), re-indexed to the suffix of the line list at the
cursor; the Boolean is the `inList` flag.  After the last line a still-open
list is closed.  `fuel` bounds the recursion; every step consumes at least
one line (the table step consumes `processMarkdownTable`'s count, at least
two), so any fuel of at least the list length gives the source behaviour;
on exhaustion the scanner closes an open list and stops (unreachable from
`convertFragments`). -/
def scanLinesF : Nat → List String → Bool → List String
  | _, [], inList => if inList then ["</ul>"] else []
  | 0, _ :: _, inList => if inList then ["</ul>"] else []
  | fuel+1, l :: rest, inList =>
    let line := jsTrim l
    if line = "" then
      (if inList then ["</ul>"] else []) ++ [""] ++ scanLinesF fuel rest false
    else if headerMatchB line then
      (if inList then ["</ul>"] else []) ++ [headerFragment line] ++
        scanLinesF fuel rest false
    else if "- ".data.isPrefixOf line.data then
      (if inList then [] else ["<ul>"]) ++
        ["<li>" ++ formatInline ⟨line.data.drop 2⟩ ++ "</li>"] ++
        scanLinesF fuel rest true
    else if lineIsTableCandidate line then
      (if inList then ["</ul>"] else []) ++
      (let nextLine := jsTrim (rest.headD "")
       if nextLine ≠ "" ∧ sepMatchB nextLine then
         let res := processMarkdownTable (l :: rest)
         [res.1] ++ scanLinesF fuel (rest.drop (res.2 - 1)) false
       else
         ["<p>" ++ jsTrim ⟨replaceCharL '|' " | ".data line.data⟩ ++ "</p>"] ++
           scanLinesF fuel rest false)
    else
      (if inList then ["</ul>"] else []) ++
        ["<p>" ++ formatInline line ++ "</p>"] ++ scanLinesF fuel rest false

/-- The fragment list `htmlLines` accumulated by the converter: normalize,
split into lines, scan. -/
def convertFragments (markdown : String) : List String :=
  let lines := splitNl (normalize markdown)
  scanLinesF lines.length lines false

/-- JS `result.replace(/<\/p><p>/g, "</p><p>")`: global leftmost
replacement of the pattern by itself. -/
def cleanupReplace : List Char → List Char
  | '<' :: '/' :: 'p' :: '>' :: '<' :: 'p' :: '>' :: rest =>
    "</p><p>".data ++ cleanupReplace rest
  | c :: rest => c :: cleanupReplace rest
  | [] => []

/-- JS `result.replace(/^<\/p>/, "")`. -/
def stripLeading (s : String) : String :=
  if "</p>".data.isPrefixOf s.data then ⟨s.data.drop 4⟩ else s

/-- JS `result.replace(/<p>$/, "")`. -/
def stripTrailing (s : String) : String :=
  if "<p>".data.reverse.isPrefixOf s.data.reverse then
    ⟨(s.data.reverse.drop 3).reverse⟩
  else s

/-- The final cleanup pass (source lines 119-128). -/
def finalCleanup (s : String) : String :=
  stripTrailing (stripLeading ⟨cleanupReplace s.data⟩)

/-- `convertMarkdownToConfluenceStorage`: normalize, scan line by line,
join the fragments, apply the final cleanup. -/
def convertMarkdownToConfluenceStorage (markdown : String) : String :=
  finalCleanup (String.join (convertFragments markdown))

/-- The converter without its final cleanup pass (for the equivalence
claim about the cleanup). -/
def convertWithoutCleanup (markdown : String) : String :=
  String.join (convertFragments markdown)

/-- The separator-only class named by the specification for the
table-candidate exclusion: the trimmed line consists only of dashes,
colons, pipes and whitespace.  (Stated from the spec's words, to be
compared with the code's `dashPipeMatchB` exclusion.) -/
def sepOnlyLineB (l : String) : Bool :=
  (jsTrim l).data.all (fun c => c = '-' || c = ':' || c = '|' || isJsWs c)

/-- Shape invariant of every fragment the Block Scanner emits: a fragment
is empty, or has length at least four, does not begin with `</p>`, and
does not end with `<p>` - exactly what is needed for the final cleanup's
leading and trailing strips to be inert on the joined output. -/
def fragOk (s : String) : Prop :=
  s = "" ∨ (4 ≤ s.data.length ∧
    "</p>".data.isPrefixOf s.data = false ∧
    ("<p>".data.reverse).isPrefixOf s.data.reverse = false)

/-! ### Helper lemmas -/

/-- The data-row loop consumes exactly the longest prefix of lines that are
non-blank and contain a pipe. -/
theorem collectDataRows_count (ls : List String) :
    (collectDataRows ls).2 = (ls.takeWhile consumePredB).length := by
  induction ls with
  | nil => rfl
  | cons l rest ih =>
    by_cases h : consumePredB l
    · simp [collectDataRows, h, List.takeWhile_cons, ih]
    · simp [collectDataRows, h, List.takeWhile_cons]

/-- Per-character expansion distributes over append. -/
theorem charExpand_append (g : Char → List Char) (a b : List Char) :
    charExpand g (a ++ b) = charExpand g a ++ charExpand g b := by
  induction a with
  | nil => rfl
  | cons c rest ih => simp [charExpand, ih]

/-- The normalizer substitution chain distributes over append. -/
theorem normalizeL_append (a b : List Char) :
    normalizeL (a ++ b) = normalizeL a ++ normalizeL b := by
  simp only [normalizeL, replaceCharL, charExpand_append]

/-- The normalizer is idempotent on every single character: none of its
replacement texts contains one of its target characters. -/
theorem normalizeL_single_idem (c : Char) :
    normalizeL (normalizeL [c]) = normalizeL [c] := by
  by_cases h1 : c = enDash
  · subst h1; decide
  · by_cases h2 : c = emDash
    · subst h2; decide
    · by_cases h3 : c = '"'
      · subst h3; decide
      · by_cases h4 : c = apos
        · subst h4; decide
        · by_cases h5 : c = '&'
          · subst h5; decide
          · have hc : normalizeL [c] = [c] := by
              simp [normalizeL, replaceCharL, charExpand, h1, h2, h3, h4, h5]
            rw [hc, hc]

/-- The normalizer substitution chain is idempotent on character lists. -/
theorem normalizeL_idem (cs : List Char) :
    normalizeL (normalizeL cs) = normalizeL cs := by
  induction cs with
  | nil => rfl
  | cons c rest ih =>
    have hcons : (c :: rest) = [c] ++ rest := rfl
    rw [hcons, normalizeL_append, normalizeL_append, normalizeL_single_idem, ih]

/-- Strings of different lengths are different. -/
theorem ne_of_len {a b : String} (h : ¬ a.length = b.length) : a ≠ b :=
  fun e => h (congrArg String.length e)

/-- Every header fragment has length at least seven. -/
theorem headerFragment_len (line : String) : 7 ≤ (headerFragment line).length := by
  have e1 : ("<h" : String).length = 2 := rfl
  have e2 : (">" : String).length = 1 := rfl
  have e3 : ("</h" : String).length = 3 := rfl
  simp only [headerFragment, String.length_append]
  omega

/-- Every emitted table markup has length at least thirty. -/
theorem pmt_html_len (ls : List String) : 30 ≤ (processMarkdownTable ls).1.length := by
  have e1 : ("<table><tbody>" : String).length = 14 := rfl
  have e2 : ("</tbody></table>" : String).length = 16 := rfl
  simp only [processMarkdownTable, String.length_append]
  omega

/-! ### Claims -/

/-- C1: the claim states that the Line Normalizer converts the Unicode
smart-quote code points to ASCII quotes.  The code's quote substitutions
target the ASCII quote and apostrophe and replace each by itself, so the
four smart-quote code points U+201C, U+201D, U+2018, U+2019 pass through
the normalizer unaltered; this theorem evaluates the normalizer at those
failing inputs. -/
theorem c1_smart_quotes_unaltered :
    normalize (String.singleton (Char.ofNat 8220)) = String.singleton (Char.ofNat 8220) ∧
    normalize (String.singleton (Char.ofNat 8221)) = String.singleton (Char.ofNat 8221) ∧
    normalize (String.singleton (Char.ofNat 8216)) = String.singleton (Char.ofNat 8216) ∧
    normalize (String.singleton (Char.ofNat 8217)) = String.singleton (Char.ofNat 8217) ∧
    String.singleton (Char.ofNat 8220) ≠ "\"" ∧
    String.singleton (Char.ofNat 8218) ≠ String.singleton apos := by
  decide

/-- C2 counterexample: on `**a*b*c**` the Inline Formatter does not produce
a single bold span with content `a*b*c` - the bold rule's `[^*]+` content
class cannot span the inner asterisks, so no bold match exists. -/
theorem c2_counterexample :
    formatInline "**a*b*c**" ≠ "<strong>a*b*c</strong>" := by
  decide

/-- C2 amended: on `**a*b*c**` the bold rule finds no match (its `[^*]+`
content class excludes asterisks), and the italic rule then matches `*a*`
and `*c*`, so the result is `*<em>a</em>b<em>c</em>*` with the outer and
middle asterisks kept as plain text. -/
theorem c2_inline_on_nested_asterisks :
    formatInline "**a*b*c**" = "*<em>a</em>b<em>c</em>*" := by
  decide

/-- C3 counterexample: the separator-only line `|:--|:--|` (only dashes,
colons and pipes) is classified as a table candidate by the Block
Scanner's test, and with a following separator row it does start a table -
the exclusion regex `^\s*\|?\s*-+\s*\|` requires the first non-whitespace
run after the optional pipe to be dashes, which a leading colon defeats. -/
theorem c3_counterexample :
    sepOnlyLineB "|:--|:--|" = true ∧
    lineIsTableCandidate "|:--|:--|" = true ∧
    scanLinesF 2 ["|:--|:--|", "---|---"] false =
      ["<table><tbody><tr><th>:--</th><th>:--</th></tr></tbody></table>"] := by
  refine ⟨by decide, by decide, by decide⟩

/-- C3 amended: only lines matching the code's exclusion regex
`^\s*\|?\s*-+\s*\|` (optional pipe, then a dash run, then a pipe) are
never classified as table candidates; separator-only lines outside that
shape, such as `|:--|:--|`, are classified as candidates. -/
theorem c3_excluded_lines_not_candidates (l : String)
    (h : dashPipeMatchB l = true) : lineIsTableCandidate l = false := by
  simp [lineIsTableCandidate, h]

/-- Witness for `c3_excluded_lines_not_candidates` at `---|---`. -/
theorem c3_excluded_lines_not_candidates_witness :
    dashPipeMatchB "---|---" = true ∧ lineIsTableCandidate "---|---" = false :=
  ⟨by decide, c3_excluded_lines_not_candidates "---|---" (by decide)⟩

/-- C4 counterexample: the data-row loop consumes the line `|` (non-blank,
contains a pipe) but produces no row for it, because its cell list is
empty after dropping the leading and trailing empty cells and the source
only pushes nonempty cell lists; the emitted table for
`a|b / -|- / |` has a header row and zero data rows although one data
line was consumed. -/
theorem c4_counterexample :
    (collectDataRows ["|"]).2 = 1 ∧ (collectDataRows ["|"]).1 = [] ∧
    (processMarkdownTable ["a|b", "-|-", "|"]).2 = 3 ∧
    (processMarkdownTable ["a|b", "-|-", "|"]).1 =
      "<table><tbody><tr><th>a</th><th>b</th></tr></tbody></table>" := by
  refine ⟨by decide, by decide, by decide, by decide⟩

/-- C4 amended: the Table Sub-Parser produces one row per consumed line
whose cell list is nonempty after dropping leading/trailing empty cells;
consumed lines with an empty cell list (such as a lone `|`) are skipped
and produce no row. -/
theorem c4_one_row_per_nonempty_consumed_line (ls : List String) :
    (collectDataRows ls).1 =
      ((ls.takeWhile consumePredB).map cellsOfLine).filter
        (fun cs => !cs.isEmpty) := by
  induction ls with
  | nil => rfl
  | cons l rest ih =>
    by_cases h : consumePredB l
    · by_cases hc : (cellsOfLine l).isEmpty
      · simp [collectDataRows, h, hc, List.takeWhile_cons, ih]
      · simp [collectDataRows, h, hc, List.takeWhile_cons, ih]
    · simp [collectDataRows, h, List.takeWhile_cons]

/-- C7: the Line Normalizer is idempotent - applying its substitution
sequence to its own output yields the same string as applying it once
(no substitution target is re-introduced by any replacement text). -/
theorem c7_normalize_idempotent (s : String) :
    normalize (normalize s) = normalize s := by
  show (⟨normalizeL (normalizeL s.data)⟩ : String) = ⟨normalizeL s.data⟩
  rw [normalizeL_idem]

/-- C5: when the Block Scanner meets a lookahead-confirmed table header
(a trimmed line that is non-blank, not a header, not a list item, passes
the table-candidate test, and whose next line is non-blank and matches the
separator pattern), the Table Sub-Parser consumes exactly the header row,
the separator row, and the maximal contiguous run of subsequent non-blank
pipe-containing lines, and the scanner resumes exactly one past the last
consumed line, so no consumed line is classified again. -/
theorem c5_table_atomicity (f : Nat) (l : String) (rest : List String) (b : Bool)
    (h1 : jsTrim l ≠ "")
    (h2 : headerMatchB (jsTrim l) = false)
    (h3 : "- ".data.isPrefixOf (jsTrim l).data = false)
    (h4 : lineIsTableCandidate (jsTrim l) = true)
    (h5 : jsTrim (rest.headD "") ≠ "")
    (h6 : sepMatchB (jsTrim (rest.headD "")) = true) :
    (processMarkdownTable (l :: rest)).2 =
      2 + ((rest.drop 1).takeWhile consumePredB).length ∧
    scanLinesF (f + 1) (l :: rest) b =
      (if b then ["</ul>"] else []) ++
        [(processMarkdownTable (l :: rest)).1] ++
        scanLinesF f (rest.drop ((processMarkdownTable (l :: rest)).2 - 1)) false := by
  constructor
  · simp [processMarkdownTable, collectDataRows_count]
  · have e : rest.headD "" = rest.head?.getD "" := by
      cases rest <;> rfl
    rw [e] at h5 h6
    simp only [scanLinesF]
    simp [h1, h2, h3, h4, h5, h6]

/-- Witness for `c5_table_atomicity` on a concrete four-line tail. -/
theorem c5_table_atomicity_witness :
    (jsTrim "a|b" ≠ "" ∧ headerMatchB (jsTrim "a|b") = false ∧
     "- ".data.isPrefixOf (jsTrim "a|b").data = false ∧
     lineIsTableCandidate (jsTrim "a|b") = true ∧
     jsTrim (["-|-", "1|2", "", "x"].headD "") ≠ "" ∧
     sepMatchB (jsTrim (["-|-", "1|2", "", "x"].headD "")) = true) ∧
    ((processMarkdownTable ["a|b", "-|-", "1|2", "", "x"]).2 =
       2 + ((["-|-", "1|2", "", "x"].drop 1).takeWhile consumePredB).length ∧
     scanLinesF (2 + 1) ["a|b", "-|-", "1|2", "", "x"] false =
       (if false then ["</ul>"] else []) ++
         [(processMarkdownTable ["a|b", "-|-", "1|2", "", "x"]).1] ++
         scanLinesF 2
           (["-|-", "1|2", "", "x"].drop
             ((processMarkdownTable ["a|b", "-|-", "1|2", "", "x"]).2 - 1))
           false) :=
  ⟨⟨by decide, by decide, by decide, by decide, by decide, by decide⟩,
   c5_table_atomicity 2 "a|b" ["-|-", "1|2", "", "x"] false
     (by decide) (by decide) (by decide) (by decide) (by decide) (by decide)⟩

/-- List open/close balance of the Block Scanner: starting from flag `b`,
the emitted `</ul>` fragments exceed the emitted `<ul>` fragments by
exactly one when a list is already open. -/
theorem scanLinesF_ul_balance (f : Nat) :
    ∀ (ls : List String) (b : Bool),
      (scanLinesF f ls b).count "</ul>" =
        (scanLinesF f ls b).count "<ul>" + (if b then 1 else 0) := by
  induction f with
  | zero =>
    intro ls b
    cases ls <;> cases b <;> simp [scanLinesF]
  | succ f ih =>
    intro ls b
    cases ls with
    | nil => cases b <;> simp [scanLinesF]
    | cons l rest =>
      have u1 : ("<ul>" : String).length = 4 := rfl
      have u2 : ("</ul>" : String).length = 5 := rfl
      have hh : ¬("<ul>" = headerFragment (jsTrim l)) ∧
          ¬("</ul>" = headerFragment (jsTrim l)) := by
        have hlen := headerFragment_len (jsTrim l)
        constructor <;> intro e <;>
          exact absurd (congrArg String.length e.symm) (by omega)
      have hli : ∀ x : String,
          ¬("<ul>" = "<li>" ++ x ++ "</li>") ∧
          ¬("</ul>" = "<li>" ++ x ++ "</li>") := by
        intro x
        have hlen : ("<li>" ++ x ++ "</li>").length = x.length + 9 := by
          have e1 : ("<li>" : String).length = 4 := rfl
          have e2 : ("</li>" : String).length = 5 := rfl
          simp only [String.length_append]
          omega
        constructor <;> intro e <;>
          exact absurd (congrArg String.length e.symm) (by omega)
      have hp : ∀ x : String,
          ¬("<ul>" = "<p>" ++ x ++ "</p>") ∧
          ¬("</ul>" = "<p>" ++ x ++ "</p>") := by
        intro x
        have hlen : ("<p>" ++ x ++ "</p>").length = x.length + 7 := by
          have e1 : ("<p>" : String).length = 3 := rfl
          have e2 : ("</p>" : String).length = 4 := rfl
          simp only [String.length_append]
          omega
        constructor <;> intro e <;>
          exact absurd (congrArg String.length e.symm) (by omega)
      have htb : ¬("<ul>" = (processMarkdownTable (l :: rest)).1) ∧
          ¬("</ul>" = (processMarkdownTable (l :: rest)).1) := by
        have hlen := pmt_html_len (l :: rest)
        constructor <;> intro e <;>
          exact absurd (congrArg String.length e.symm) (by omega)
      by_cases h1 : jsTrim l = ""
      · have H := ih rest false
        cases b <;>
          simp [scanLinesF, h1, List.count_append, List.count_cons, H]
      · by_cases h2 : headerMatchB (jsTrim l) = true
        · have H := ih rest false
          cases b <;>
            simp [scanLinesF, h1, h2, List.count_append, List.count_cons,
              beq_iff_eq, hh.1, hh.2, H]
        · by_cases h3 : "- ".data.isPrefixOf (jsTrim l).data = true
          · have H := ih rest true
            cases b <;>
              simp [scanLinesF, h1, h2, h3, List.count_append, List.count_cons,
                beq_iff_eq, (hli (formatInline ⟨(jsTrim l).data.drop 2⟩)).1,
                (hli (formatInline ⟨(jsTrim l).data.drop 2⟩)).2, H]
          · by_cases h4 : lineIsTableCandidate (jsTrim l) = true
            · by_cases h5 : jsTrim (rest.head?.getD "") ≠ "" ∧
                  sepMatchB (jsTrim (rest.head?.getD "")) = true
              · have H := ih (rest.drop ((processMarkdownTable (l :: rest)).2 - 1)) false
                cases b <;>
                  simp [scanLinesF, h1, h2, h3, h4, h5, List.count_append,
                    List.count_cons, beq_iff_eq, htb.1, htb.2, H]
              · have H := ih rest false
                cases b <;>
                  simp [scanLinesF, h1, h2, h3, h4, h5, List.count_append,
                    List.count_cons, beq_iff_eq,
                    (hp (jsTrim ⟨replaceCharL '|' " | ".data (jsTrim l).data⟩)).1,
                    (hp (jsTrim ⟨replaceCharL '|' " | ".data (jsTrim l).data⟩)).2, H]
            · have H := ih rest false
              cases b <;>
                simp [scanLinesF, h1, h2, h3, h4, List.count_append,
                  List.count_cons, beq_iff_eq, (hp (formatInline (jsTrim l))).1,
                  (hp (formatInline (jsTrim l))).2, H]

/-- C6: for every input string, the Block Scanner emits as many list-open
fragments as list-close fragments - every opened list is closed exactly
once, by a non-list line or by end of input. -/
theorem c6_list_open_close_balance (s : String) :
    (convertFragments s).count "<ul>" = (convertFragments s).count "</ul>" := by
  have h := scanLinesF_ul_balance (splitNl (normalize s)).length
    (splitNl (normalize s)) false
  simp only [if_neg Bool.false_ne_true] at h
  simp [convertFragments, h]

/-- The Block Scanner's result does not depend on the fuel bound, as long
as the fuel is at least the number of remaining lines: every step consumes
at least one line (the table step at least two). -/
theorem scanLinesF_fuel_congr :
    ∀ (n f g : Nat) (ls : List String) (b : Bool),
      ls.length ≤ n → ls.length ≤ f → ls.length ≤ g →
      scanLinesF f ls b = scanLinesF g ls b := by
  intro n
  induction n with
  | zero =>
    intro f g ls b hn _ _
    have hnil : ls = [] := List.length_eq_zero.mp (Nat.le_zero.mp hn)
    subst hnil
    simp [scanLinesF]
  | succ n ih =>
    intro f g ls b hn hf hg
    cases ls with
    | nil => simp [scanLinesF]
    | cons l rest =>
      cases f with
      | zero => exact absurd hf (by simp)
      | succ f' =>
        cases g with
        | zero => exact absurd hg (by simp)
        | succ g' =>
          have hr : rest.length ≤ n := by simp [List.length_cons] at hn; omega
          have hrf : rest.length ≤ f' := by simp [List.length_cons] at hf; omega
          have hrg : rest.length ≤ g' := by simp [List.length_cons] at hg; omega
          by_cases h1 : jsTrim l = ""
          · simp [scanLinesF, h1, ih f' g' rest false hr hrf hrg]
          · by_cases h2 : headerMatchB (jsTrim l) = true
            · simp [scanLinesF, h1, h2, ih f' g' rest false hr hrf hrg]
            · by_cases h3 : "- ".data.isPrefixOf (jsTrim l).data = true
              · simp [scanLinesF, h1, h2, h3, ih f' g' rest true hr hrf hrg]
              · by_cases h4 : lineIsTableCandidate (jsTrim l) = true
                · by_cases h5 : jsTrim (rest.head?.getD "") ≠ "" ∧
                      sepMatchB (jsTrim (rest.head?.getD "")) = true
                  · have hd1 : (rest.drop ((processMarkdownTable (l :: rest)).2 - 1)).length ≤ n := by
                      have := List.length_drop ((processMarkdownTable (l :: rest)).2 - 1) rest
                      omega
                    have hd2 : (rest.drop ((processMarkdownTable (l :: rest)).2 - 1)).length ≤ f' := by
                      have := List.length_drop ((processMarkdownTable (l :: rest)).2 - 1) rest
                      omega
                    have hd3 : (rest.drop ((processMarkdownTable (l :: rest)).2 - 1)).length ≤ g' := by
                      have := List.length_drop ((processMarkdownTable (l :: rest)).2 - 1) rest
                      omega
                    simp [scanLinesF, h1, h2, h3, h4, h5,
                      ih f' g' (rest.drop ((processMarkdownTable (l :: rest)).2 - 1)) false hd1 hd2 hd3]
                  · simp [scanLinesF, h1, h2, h3, h4, h5,
                      ih f' g' rest false hr hrf hrg]
                · simp [scanLinesF, h1, h2, h3, h4,
                    ih f' g' rest false hr hrf hrg]

/-- C8: the converter is total - every input produces some markup - and
every loop strictly advances: the Table Sub-Parser always consumes at
least two lines (its returned last index is at least one more than its
start index), and the Block Scanner's recursion is insensitive to any
fuel bound of at least the number of remaining lines, i.e. it terminates
within one step per line. -/
theorem c8_total_and_strict_advance :
    (∀ ls : List String, 2 ≤ (processMarkdownTable ls).2) ∧
    (∀ (f : Nat) (ls : List String) (b : Bool), ls.length ≤ f →
      scanLinesF f ls b = scanLinesF ls.length ls b) ∧
    (∀ s : String, ∃ out : String, convertMarkdownToConfluenceStorage s = out) := by
  refine ⟨?_, ?_, ?_⟩
  · intro ls
    simp [processMarkdownTable]
  · intro f ls b hf
    exact scanLinesF_fuel_congr f f ls.length ls b hf hf le_rfl
  · intro s
    exact ⟨_, rfl⟩

/-- Witness for `c8_total_and_strict_advance` at concrete inputs. -/
theorem c8_total_witness :
    2 ≤ (processMarkdownTable ["a|b", "-|-"]).2 ∧
    (["x", "y"].length ≤ 5 ∧
      scanLinesF 5 ["x", "y"] false = scanLinesF (["x", "y"].length) ["x", "y"] false) ∧
    (∃ out : String, convertMarkdownToConfluenceStorage "# t" = out) :=
  ⟨c8_total_and_strict_advance.1 ["a|b", "-|-"],
   ⟨by decide, c8_total_and_strict_advance.2.1 5 ["x", "y"] false (by decide)⟩,
   c8_total_and_strict_advance.2.2 "# t"⟩

/-- JS `trim` is idempotent on character lists. -/
theorem trimL_idem (cs : List Char) : trimL (trimL cs) = trimL cs := by
  have hA : (cs.dropWhile isJsWs).dropWhile isJsWs = cs.dropWhile isJsWs :=
    List.dropWhile_idempotent _ _
  obtain ⟨t, ht⟩ := List.rdropWhile_prefix isJsWs (cs.dropWhile isJsWs)
  have hfront : (List.rdropWhile isJsWs (cs.dropWhile isJsWs)).dropWhile isJsWs =
      List.rdropWhile isJsWs (cs.dropWhile isJsWs) := by
    cases hTc : List.rdropWhile isJsWs (cs.dropWhile isJsWs) with
    | nil => rfl
    | cons c T2 =>
      have hAc : cs.dropWhile isJsWs = c :: (T2 ++ t) := by
        rw [← ht, hTc]
        rfl
      have h0 := hA
      rw [hAc, List.dropWhile_cons] at h0
      by_cases hw : isJsWs c = true
      · rw [if_pos hw] at h0
        have hle := (List.dropWhile_suffix (l := T2 ++ t) isJsWs).length_le
        have hlen := congrArg List.length h0
        simp [List.length_append] at hlen hle
        omega
      · rw [List.dropWhile_cons, if_neg hw]
  calc trimL (trimL cs)
      = List.rdropWhile isJsWs
          ((List.rdropWhile isJsWs (cs.dropWhile isJsWs)).dropWhile isJsWs) := rfl
    _ = List.rdropWhile isJsWs (List.rdropWhile isJsWs (cs.dropWhile isJsWs)) := by
        rw [hfront]
    _ = List.rdropWhile isJsWs (cs.dropWhile isJsWs) := List.rdropWhile_idempotent _ _
    _ = trimL cs := rfl

/-- JS `trim` is idempotent on strings. -/
theorem jsTrim_idem (s : String) : jsTrim (jsTrim s) = jsTrim s := by
  show (⟨trimL (trimL s.data)⟩ : String) = ⟨trimL s.data⟩
  rw [trimL_idem]

/-- Unfolding the Block Scanner at a blank line. -/
theorem scan_cons_blank (f : Nat) (l : String) (rest : List String) (b : Bool)
    (h1 : jsTrim l = "") :
    scanLinesF (f + 1) (l :: rest) b =
      (if b then ["</ul>"] else []) ++ [""] ++ scanLinesF f rest false := by
  simp [scanLinesF, h1]

/-- Unfolding the Block Scanner at a header line. -/
theorem scan_cons_header (f : Nat) (l : String) (rest : List String) (b : Bool)
    (h1 : ¬ jsTrim l = "") (h2 : headerMatchB (jsTrim l) = true) :
    scanLinesF (f + 1) (l :: rest) b =
      (if b then ["</ul>"] else []) ++ [headerFragment (jsTrim l)] ++
        scanLinesF f rest false := by
  simp [scanLinesF, h1, h2]

/-- Unfolding the Block Scanner at a list-item line. -/
theorem scan_cons_li (f : Nat) (l : String) (rest : List String) (b : Bool)
    (h1 : ¬ jsTrim l = "") (h2 : headerMatchB (jsTrim l) = false)
    (h3 : "- ".data.isPrefixOf (jsTrim l).data = true) :
    scanLinesF (f + 1) (l :: rest) b =
      (if b then [] else ["<ul>"]) ++
        ["<li>" ++ formatInline ⟨(jsTrim l).data.drop 2⟩ ++ "</li>"] ++
        scanLinesF f rest true := by
  simp [scanLinesF, h1, h2, h3]

/-- Unfolding the Block Scanner at a lookahead-confirmed table header. -/
theorem scan_cons_table (f : Nat) (l : String) (rest : List String) (b : Bool)
    (h1 : ¬ jsTrim l = "") (h2 : headerMatchB (jsTrim l) = false)
    (h3 : "- ".data.isPrefixOf (jsTrim l).data = false)
    (h4 : lineIsTableCandidate (jsTrim l) = true)
    (h5 : ¬ jsTrim (rest.headD "") = "")
    (h6 : sepMatchB (jsTrim (rest.headD "")) = true) :
    scanLinesF (f + 1) (l :: rest) b =
      (if b then ["</ul>"] else []) ++ [(processMarkdownTable (l :: rest)).1] ++
        scanLinesF f (rest.drop ((processMarkdownTable (l :: rest)).2 - 1)) false := by
  have e : rest.headD "" = rest.head?.getD "" := by cases rest <;> rfl
  rw [e] at h5 h6
  simp [scanLinesF, h1, h2, h3, h4, h5, h6]

/-- Unfolding the Block Scanner at a false-positive table line (a pipe
line whose next line is not a separator). -/
theorem scan_cons_pipe_para (f : Nat) (l : String) (rest : List String) (b : Bool)
    (h1 : ¬ jsTrim l = "") (h2 : headerMatchB (jsTrim l) = false)
    (h3 : "- ".data.isPrefixOf (jsTrim l).data = false)
    (h4 : lineIsTableCandidate (jsTrim l) = true)
    (h5 : ¬(jsTrim (rest.headD "") ≠ "" ∧ sepMatchB (jsTrim (rest.headD "")) = true)) :
    scanLinesF (f + 1) (l :: rest) b =
      (if b then ["</ul>"] else []) ++
        ["<p>" ++ jsTrim ⟨replaceCharL '|' " | ".data (jsTrim l).data⟩ ++ "</p>"] ++
        scanLinesF f rest false := by
  have e : rest.headD "" = rest.head?.getD "" := by cases rest <;> rfl
  rw [e] at h5
  simp only [scanLinesF]
  simp [h1, h2, h3, h4, h5]

/-- Unfolding the Block Scanner at an ordinary paragraph line. -/
theorem scan_cons_para (f : Nat) (l : String) (rest : List String) (b : Bool)
    (h1 : ¬ jsTrim l = "") (h2 : headerMatchB (jsTrim l) = false)
    (h3 : "- ".data.isPrefixOf (jsTrim l).data = false)
    (h4 : lineIsTableCandidate (jsTrim l) = false) :
    scanLinesF (f + 1) (l :: rest) b =
      (if b then ["</ul>"] else []) ++
        ["<p>" ++ formatInline (jsTrim l) ++ "</p>"] ++
        scanLinesF f rest false := by
  simp [scanLinesF, h1, h2, h3, h4]

/-- The data-row loop only sees trimmed lines, so pre-trimming every line
does not change it. -/
theorem collectDataRows_map_trim (ls : List String) :
    collectDataRows (ls.map jsTrim) = collectDataRows ls := by
  induction ls with
  | nil => rfl
  | cons l rest ih =>
    by_cases h : consumePredB l
    · have h2 : consumePredB (jsTrim l) = true := by
        simpa [consumePredB, jsTrim_idem] using h
      simp [collectDataRows, h, h2, ih, cellsOfLine, jsTrim_idem]
    · have h2 : consumePredB (jsTrim l) = false := by
        simp only [consumePredB, jsTrim_idem]
        simpa [consumePredB] using h
      simp [collectDataRows, h, h2]

/-- The Table Sub-Parser only sees trimmed lines, so pre-trimming every
line does not change it. -/
theorem pmt_map_trim (ls : List String) :
    processMarkdownTable (ls.map jsTrim) = processMarkdownTable ls := by
  have hhead : jsTrim ((ls.map jsTrim).headD "") = jsTrim (ls.headD "") := by
    cases ls with
    | nil => rfl
    | cons l rest => simp [jsTrim_idem]
  have hdrop : (ls.map jsTrim).drop 2 = (ls.drop 2).map jsTrim :=
    (List.map_drop jsTrim ls 2).symm
  simp only [processMarkdownTable]
  rw [hhead, hdrop, collectDataRows_map_trim]

/-- The Block Scanner trims every line before classification and before
any emission, so pre-trimming every line does not change its output. -/
theorem scanLinesF_map_trim (f : Nat) :
    ∀ (ls : List String) (b : Bool),
      scanLinesF f (ls.map jsTrim) b = scanLinesF f ls b := by
  induction f with
  | zero =>
    intro ls b
    cases ls <;> rfl
  | succ f ih =>
    intro ls b
    cases ls with
    | nil => rfl
    | cons l rest =>
      have hmapcons : (l :: rest).map jsTrim = jsTrim l :: rest.map jsTrim := rfl
      have hnextD : jsTrim ((rest.map jsTrim).headD "") = jsTrim (rest.headD "") := by
        cases rest with
        | nil => rfl
        | cons x xs => exact jsTrim_idem x
      have hpmt : processMarkdownTable (jsTrim l :: rest.map jsTrim) =
          processMarkdownTable (l :: rest) := by
        rw [← hmapcons, pmt_map_trim]
      rw [hmapcons]
      by_cases h1 : jsTrim l = ""
      · rw [scan_cons_blank f (jsTrim l) _ b (by rw [jsTrim_idem]; exact h1),
          scan_cons_blank f l rest b h1, ih rest false]
      · have h1m : ¬(jsTrim (jsTrim l) = "") := by rw [jsTrim_idem]; exact h1
        by_cases h2 : headerMatchB (jsTrim l) = true
        · rw [scan_cons_header f (jsTrim l) _ b h1m (by rw [jsTrim_idem]; exact h2),
            scan_cons_header f l rest b h1 h2, ih rest false, jsTrim_idem]
        · have h2f : headerMatchB (jsTrim l) = false := by
            exact Bool.not_eq_true _ ▸ eq_false_of_ne_true h2
          by_cases h3 : "- ".data.isPrefixOf (jsTrim l).data = true
          · rw [scan_cons_li f (jsTrim l) _ b h1m
                (by rw [jsTrim_idem]; exact h2f) (by rw [jsTrim_idem]; exact h3),
              scan_cons_li f l rest b h1 h2f h3, ih rest true, jsTrim_idem]
          · have h3f : "- ".data.isPrefixOf (jsTrim l).data = false :=
              eq_false_of_ne_true h3
            by_cases h4 : lineIsTableCandidate (jsTrim l) = true
            · by_cases h5 : jsTrim (rest.headD "") = ""
              · rw [scan_cons_pipe_para f (jsTrim l) _ b h1m
                    (by rw [jsTrim_idem]; exact h2f) (by rw [jsTrim_idem]; exact h3f)
                    (by rw [jsTrim_idem]; exact h4)
                    (by rw [hnextD]; intro hc; exact hc.1 h5),
                  scan_cons_pipe_para f l rest b h1 h2f h3f h4
                    (by intro hc; exact hc.1 h5),
                  ih rest false, jsTrim_idem]
              · by_cases h6 : sepMatchB (jsTrim (rest.headD "")) = true
                · rw [scan_cons_table f (jsTrim l) _ b h1m
                      (by rw [jsTrim_idem]; exact h2f) (by rw [jsTrim_idem]; exact h3f)
                      (by rw [jsTrim_idem]; exact h4)
                      (by rw [hnextD]; exact h5) (by rw [hnextD]; exact h6),
                    scan_cons_table f l rest b h1 h2f h3f h4 h5 h6, hpmt,
                    ← List.map_drop jsTrim rest,
                    ih (rest.drop ((processMarkdownTable (l :: rest)).2 - 1)) false]
                · rw [scan_cons_pipe_para f (jsTrim l) _ b h1m
                      (by rw [jsTrim_idem]; exact h2f) (by rw [jsTrim_idem]; exact h3f)
                      (by rw [jsTrim_idem]; exact h4)
                      (by rw [hnextD]; intro hc; exact h6 hc.2),
                    scan_cons_pipe_para f l rest b h1 h2f h3f h4
                      (by intro hc; exact h6 hc.2),
                    ih rest false, jsTrim_idem]
            · have h4f : lineIsTableCandidate (jsTrim l) = false :=
                eq_false_of_ne_true h4
              rw [scan_cons_para f (jsTrim l) _ b h1m
                  (by rw [jsTrim_idem]; exact h2f) (by rw [jsTrim_idem]; exact h3f)
                  (by rw [jsTrim_idem]; exact h4f),
                scan_cons_para f l rest b h1 h2f h3f h4f, ih rest false, jsTrim_idem]

/-- C9: line classification and emission only depend on the trimmed line -
pre-trimming every input line leaves the Block Scanner's output unchanged;
and concretely an indented list line is classified as a list item with the
surrounding whitespace absent from the output, while a whitespace-only
line is classified as blank. -/
theorem c9_lines_trimmed_before_classification :
    (∀ (f : Nat) (ls : List String) (b : Bool),
      scanLinesF f (ls.map jsTrim) b = scanLinesF f ls b) ∧
    scanLinesF 1 ["   - item  "] false = ["<ul>", "<li>item</li>", "</ul>"] ∧
    scanLinesF 1 ["   "] false = [""] :=
  ⟨scanLinesF_map_trim, by decide, by decide⟩

/-- Replacing the cleanup pattern by itself never changes a string. -/
theorem cleanupReplace_id : ∀ cs : List Char, cleanupReplace cs = cs := by
  intro cs
  induction cs using cleanupReplace.induct with
  | case1 rest ih => rw [cleanupReplace, ih]; rfl
  | case2 c rest hne ih =>
    rw [cleanupReplace.eq_def]
    split
    · rename_i rest2 heq
      injection heq with h1 h2
      exact (hne rest2 h1 h2).elim
    · rename_i c2 rest2 hcond heq
      injection heq with h1 h2
      subst h1
      subst h2
      rw [ih]
    · rename_i heq
      exact List.noConfusion heq
  | case3 => rfl

/-- A prefix test does not see past an initial segment at least as long as
the pattern. -/
theorem isPrefixOf_append_of_le (pat a b : List Char) (h : pat.length ≤ a.length) :
    pat.isPrefixOf (a ++ b) = pat.isPrefixOf a := by
  induction pat generalizing a with
  | nil => simp [List.isPrefixOf]
  | cons p ps ih =>
    cases a with
    | nil => simp at h
    | cons x a2 =>
      simp only [List.cons_append, List.isPrefixOf]
      congr 1
      exact ih a2 (by simp [List.length_cons] at h; omega)

/-- The data of a joined string list is the flattened list of data. -/
theorem join_data (fs : List String) :
    (String.join fs).data = (fs.map String.data).flatten := by
  have key : ∀ (gs : List String) (init : String),
      (gs.foldl (fun r s => r ++ s) init).data =
        init.data ++ (gs.map String.data).flatten := by
    intro gs
    induction gs with
    | nil => intro init; simp
    | cons g gs ih =>
      intro init
      simp [List.foldl_cons, ih, String.data_append]
  have : String.join fs = fs.foldl (fun r s => r ++ s) "" := rfl
  rw [this, key]
  rfl

/-- Joined good fragments never begin with `</p>`. -/
theorem join_no_close_p (fs : List String) (hok : ∀ g ∈ fs, fragOk g) :
    "</p>".data.isPrefixOf ((fs.map String.data).flatten) = false := by
  induction fs with
  | nil => decide
  | cons g gs ih =>
    have hg := hok g (by simp)
    have hgs : ∀ x ∈ gs, fragOk x := fun x hx => hok x (by simp [hx])
    rcases hg with hg | ⟨hlen, hpre, _⟩
    · simp [hg, ih hgs]
    · have : (g.data :: gs.map String.data).flatten = g.data ++ (gs.map String.data).flatten := rfl
      simp only [List.map_cons, this]
      rw [isPrefixOf_append_of_le _ _ _ (by simpa using hlen)]
      exact hpre

/-- Joined good fragments never end with `<p>`. -/
theorem join_no_open_p (fs : List String) (hok : ∀ g ∈ fs, fragOk g) :
    ("<p>".data.reverse).isPrefixOf ((fs.map String.data).flatten).reverse = false := by
  induction fs using List.reverseRecOn with
  | nil => decide
  | append_singleton gs g ih =>
    have hg := hok g (by simp)
    have hgs : ∀ x ∈ gs, fragOk x := fun x hx => hok x (by simp [hx])
    have hsplit : ((gs ++ [g]).map String.data).flatten =
        (gs.map String.data).flatten ++ g.data := by
      simp
    rw [hsplit, List.reverse_append]
    rcases hg with hg | ⟨hlen, _, hrev⟩
    · simp [hg]
      exact ih hgs
    · rw [isPrefixOf_append_of_le _ _ _
        (by
          have h3 : ("<p>".data.reverse).length = 3 := rfl
          have hg4 : 4 ≤ g.data.reverse.length := by
            rw [List.length_reverse]
            exact hlen
          omega)]
      exact hrev

/-- A paragraph fragment is a good fragment. -/
theorem fragOk_para (x : String) : fragOk ("<p>" ++ x ++ "</p>") := by
  right
  refine ⟨?_, rfl, ?_⟩
  · show 4 ≤ (("<p>".data ++ x.data) ++ "</p>".data).length
    simp [List.length_append]
  · rw [show ("<p>" ++ x ++ "</p>").data = ("<p>".data ++ x.data) ++ "</p>".data from rfl,
      List.reverse_append, List.reverse_append]
    rfl

/-- A list-item fragment is a good fragment. -/
theorem fragOk_li (x : String) : fragOk ("<li>" ++ x ++ "</li>") := by
  right
  refine ⟨?_, rfl, ?_⟩
  · show 4 ≤ (("<li>".data ++ x.data) ++ "</li>".data).length
    simp [List.length_append]
  · rw [show ("<li>" ++ x ++ "</li>").data = ("<li>".data ++ x.data) ++ "</li>".data from rfl,
      List.reverse_append, List.reverse_append]
    rfl

/-- A table fragment is a good fragment. -/
theorem fragOk_pmt (ls : List String) : fragOk ((processMarkdownTable ls).1) := by
  obtain ⟨mid, hmid⟩ : ∃ mid : String,
      (processMarkdownTable ls).1 = "<table><tbody>" ++ mid ++ "</tbody></table>" := by
    simp only [processMarkdownTable]
    exact ⟨_, by rw [String.append_assoc "<table><tbody>"]⟩
  rw [hmid]
  right
  refine ⟨?_, rfl, ?_⟩
  · show 4 ≤ (("<table><tbody>".data ++ mid.data) ++ "</tbody></table>".data).length
    simp [List.length_append]
  · rw [show ("<table><tbody>" ++ mid ++ "</tbody></table>").data =
        ("<table><tbody>".data ++ mid.data) ++ "</tbody></table>".data from rfl,
      List.reverse_append, List.reverse_append]
    rfl

/-- A matched header line has level one, two or three. -/
theorem headerLevel_of_match (line : String) (h : headerMatchB line = true) :
    headerLevel line = 1 ∨ headerLevel line = 2 ∨ headerLevel line = 3 := by
  simp only [headerMatchB, Bool.and_eq_true, decide_eq_true_eq] at h
  obtain ⟨⟨ha, hb⟩, _⟩ := h
  unfold headerLevel
  omega

/-- A header fragment is a good fragment. -/
theorem fragOk_header (line : String) (h : headerMatchB line = true) :
    fragOk (headerFragment line) := by
  rcases headerLevel_of_match line h with hl | hl | hl <;>
    · right
      refine ⟨?_, ?_, ?_⟩
      · exact le_trans (by omega) (headerFragment_len line)
      · simp only [headerFragment, hl]
        rfl
      · simp only [headerFragment, hl, String.data_append, List.reverse_append]
        rfl

/-- The empty fragment is good. -/
theorem fragOk_empty : fragOk "" := Or.inl rfl

/-- The list-open fragment is good. -/
theorem fragOk_open_ul : fragOk "<ul>" := Or.inr ⟨by decide, by decide, by decide⟩

/-- The list-close fragment is good. -/
theorem fragOk_close_ul : fragOk "</ul>" := Or.inr ⟨by decide, by decide, by decide⟩

/-- Every fragment the Block Scanner emits is a good fragment. -/
theorem scan_frags_ok (f : Nat) :
    ∀ (ls : List String) (b : Bool), ∀ g ∈ scanLinesF f ls b, fragOk g := by
  induction f with
  | zero =>
    intro ls b g hg
    cases ls <;> cases b <;> simp [scanLinesF] at hg <;> subst hg <;>
      exact fragOk_close_ul
  | succ f ih =>
    intro ls b g hg
    cases ls with
    | nil =>
      cases b <;> simp [scanLinesF] at hg <;> subst hg <;> exact fragOk_close_ul
    | cons l rest =>
      by_cases h1 : jsTrim l = ""
      · rw [scan_cons_blank f l rest b h1] at hg
        cases b
        · simp at hg
          rcases hg with hg | hg
          · subst hg; exact fragOk_empty
          · exact ih rest false g hg
        · simp at hg
          rcases hg with hg | hg | hg
          · subst hg; exact fragOk_close_ul
          · subst hg; exact fragOk_empty
          · exact ih rest false g hg
      · by_cases h2 : headerMatchB (jsTrim l) = true
        · rw [scan_cons_header f l rest b h1 h2] at hg
          cases b
          · simp at hg
            rcases hg with hg | hg
            · subst hg; exact fragOk_header _ h2
            · exact ih rest false g hg
          · simp at hg
            rcases hg with hg | hg | hg
            · subst hg; exact fragOk_close_ul
            · subst hg; exact fragOk_header _ h2
            · exact ih rest false g hg
        · have h2f : headerMatchB (jsTrim l) = false := eq_false_of_ne_true h2
          by_cases h3 : "- ".data.isPrefixOf (jsTrim l).data = true
          · rw [scan_cons_li f l rest b h1 h2f h3] at hg
            cases b
            · simp at hg
              rcases hg with hg | hg | hg
              · subst hg; exact fragOk_open_ul
              · subst hg; exact fragOk_li _
              · exact ih rest true g hg
            · simp at hg
              rcases hg with hg | hg
              · subst hg; exact fragOk_li _
              · exact ih rest true g hg
          · have h3f : "- ".data.isPrefixOf (jsTrim l).data = false :=
              eq_false_of_ne_true h3
            by_cases h4 : lineIsTableCandidate (jsTrim l) = true
            · by_cases h5 : jsTrim (rest.headD "") = ""
              · rw [scan_cons_pipe_para f l rest b h1 h2f h3f h4
                    (fun hc => hc.1 h5)] at hg
                cases b
                · simp at hg
                  rcases hg with hg | hg
                  · subst hg; exact fragOk_para _
                  · exact ih rest false g hg
                · simp at hg
                  rcases hg with hg | hg | hg
                  · subst hg; exact fragOk_close_ul
                  · subst hg; exact fragOk_para _
                  · exact ih rest false g hg
              · by_cases h6 : sepMatchB (jsTrim (rest.headD "")) = true
                · rw [scan_cons_table f l rest b h1 h2f h3f h4 h5 h6] at hg
                  cases b
                  · simp at hg
                    rcases hg with hg | hg
                    · subst hg; exact fragOk_pmt _
                    · exact ih _ false g hg
                  · simp at hg
                    rcases hg with hg | hg | hg
                    · subst hg; exact fragOk_close_ul
                    · subst hg; exact fragOk_pmt _
                    · exact ih _ false g hg
                · rw [scan_cons_pipe_para f l rest b h1 h2f h3f h4
                      (fun hc => h6 hc.2)] at hg
                  cases b
                  · simp at hg
                    rcases hg with hg | hg
                    · subst hg; exact fragOk_para _
                    · exact ih rest false g hg
                  · simp at hg
                    rcases hg with hg | hg | hg
                    · subst hg; exact fragOk_close_ul
                    · subst hg; exact fragOk_para _
                    · exact ih rest false g hg
            · have h4f : lineIsTableCandidate (jsTrim l) = false :=
                eq_false_of_ne_true h4
              rw [scan_cons_para f l rest b h1 h2f h3f h4f] at hg
              cases b
              · simp at hg
                rcases hg with hg | hg
                · subst hg; exact fragOk_para _
                · exact ih rest false g hg
              · simp at hg
                rcases hg with hg | hg | hg
                · subst hg; exact fragOk_close_ul
                · subst hg; exact fragOk_para _
                · exact ih rest false g hg

/-- C10: the final cleanup pass is the identity on every converter run -
the global replacement rewrites its pattern to itself on any string, and
the joined fragment output never begins with `</p>` nor ends with `<p>`,
so the leading and trailing strips remove nothing: the converter with the
cleanup pass equals the converter without it. -/
theorem c10_cleanup_pass_is_identity :
    (∀ t : String, (⟨cleanupReplace t.data⟩ : String) = t) ∧
    (∀ s : String, convertMarkdownToConfluenceStorage s = convertWithoutCleanup s) := by
  have hid : ∀ t : String, (⟨cleanupReplace t.data⟩ : String) = t := by
    intro t
    rw [cleanupReplace_id]
  refine ⟨hid, ?_⟩
  intro s
  have hok : ∀ g ∈ convertFragments s, fragOk g :=
    fun g hg => scan_frags_ok _ _ _ g hg
  have hpre : "</p>".data.isPrefixOf (String.join (convertFragments s)).data = false := by
    rw [join_data]
    exact join_no_close_p _ hok
  have hsuf : ("<p>".data.reverse).isPrefixOf
      (String.join (convertFragments s)).data.reverse = false := by
    rw [join_data]
    exact join_no_open_p _ hok
  have hpre2 : ¬("</p>".data.isPrefixOf (String.join (convertFragments s)).data = true) := by
    rw [hpre]
    exact Bool.false_ne_true
  have hsuf2 : ¬(("<p>".data.reverse).isPrefixOf
      (String.join (convertFragments s)).data.reverse = true) := by
    rw [hsuf]
    exact Bool.false_ne_true
  show finalCleanup (String.join (convertFragments s)) = String.join (convertFragments s)
  unfold finalCleanup stripLeading stripTrailing
  rw [hid, if_neg hpre2, if_neg hsuf2]

end ConfluenceMd
